import Mathlib

/-!
Verification of the RAG news chatbot backend (ingest.js and server.js).
Strings are modelled as lists of characters; the asynchronous calls to the
embedding service, the vector store, the generation service and the session
store are modelled by environment records supplying each call's outcome.
-/

namespace RagChatbot

/-! ### Chunker: `chunkText` from ingest.js (lines 82-101)

`text.split(/(?<=[.?!])\s+/)` splits at each maximal whitespace run whose
preceding character is `.`, `?` or `!`; the greedy loop then packs the
resulting sentences into chunks, joined by single spaces. -/

def isJsWs (c : Char) : Bool :=
  c = ' ' || c = '\t' || c = '\n' || c = '\r' || c = '\x0b' || c = '\x0c'

def isSentEnd (c : Char) : Bool :=
  c = '.' || c = '?' || c = '!'

def sentEndHead : List Char → Bool
  | [] => false
  | p :: _ => isSentEnd p

/-- One pass over the text.  `some rcur` means a sentence is being
accumulated (reversed); `none` means a separator whitespace run is being
consumed.  The lookbehind of the regex is the head of `rcur`. -/
def splitAux : Option (List Char) → List Char → List (List Char)
  | none, [] => [[]]
  | some rcur, [] => [rcur.reverse]
  | none, c :: rest =>
      if isJsWs c then splitAux none rest else splitAux (some [c]) rest
  | some rcur, c :: rest =>
      if sentEndHead rcur && isJsWs c then rcur.reverse :: splitAux none rest
      else splitAux (some (c :: rcur)) rest

def splitSentences (text : List Char) : List (List Char) :=
  splitAux (some []) text

/-- The greedy packing loop of `chunkText`: `cur` is `currentChunk`.
The test `currentChunk.length + sentence.length <= maxChars` does not count
the joining space that the append then inserts. -/
def chunkGo (maxChars : Nat) : List (List Char) → List Char → List (List Char)
  | [], cur => if cur.isEmpty then [] else [cur]
  | s :: rest, cur =>
      if cur.length + s.length ≤ maxChars then
        chunkGo maxChars rest (if cur.isEmpty then s else cur ++ ' ' :: s)
      else if cur.isEmpty then chunkGo maxChars rest s
      else cur :: chunkGo maxChars rest s

def chunkText (text : List Char) (maxChars : Nat) : List (List Char) :=
  chunkGo maxChars (splitSentences text) []

/-- Join a list of pieces with single spaces, the way the greedy loop joins
sentences inside one chunk. -/
def joinSp : List (List Char) → List Char
  | [] => []
  | [c] => c
  | c :: c2 :: rest => c ++ ' ' :: joinSp (c2 :: rest)

/-! ### Ingestion pipeline: `main` from ingest.js (lines 143-190)

Each document's external interactions are summarised by a `DocEnv`:
what `fetchArticleContent` returned (`none` models both a fetch failure and
a text at most 200 characters long), what the single `getJinaEmbeddings`
batch call returned for the document's chunks, and the stream of
`Math.random()` draws used for point ids. -/

/-- A point sent to the vector store:
`\x7b id, payload: \x7b url, text \x7d, vector \x7d`. -/
structure Point where
  id : Int
  url : List Char
  text : List Char
  vector : List Int
  deriving DecidableEq

/-- `Math.floor(r * 1000000)` for a draw `r` of `Math.random()`,
modelled in exact arithmetic over ℚ. -/
def jsPointId (r : ℚ) : Int :=
  Int.floor (r * 1000000)

structure DocEnv where
  url : List Char
  content : Option (List Char)
  embeds : List (List Int)
  rand : Nat → ℚ

/-- `chunks.map((chunk, i) => (\x7b id, payload, vector: embeddings[i] \x7d))`:
built only under the guard `embeddings.length === chunks.length`, so the
zip is exact there. -/
def pointsToUpload (d : DocEnv) (chunks : List (List Char))
    (embeds : List (List Int)) : List Point :=
  (chunks.zip embeds).enum.map fun p => ⟨jsPointId (d.rand p.1), d.url, p.2.1, p.2.2⟩

structure IngestState where
  processed : Nat
  upserted : List Point
  deriving DecidableEq

/-- What the single `getJinaEmbeddings(chunks)` call for document `d`
returns: `[]` without a network call when there are no chunks, otherwise
the environment-supplied response (empty on failure). -/
def docEmbeds (d : DocEnv) (text : List Char) : List (List Int) :=
  if (chunkText text 500).isEmpty then [] else d.embeds

/-- The body of the per-url loop (ingest.js lines 161-184): fetch, chunk,
embed the whole batch, and upsert plus count the document exactly when the
embedding count matches the chunk count. -/
def processDoc (st : IngestState) (d : DocEnv) : IngestState :=
  match d.content with
  | none => st
  | some text =>
      if (docEmbeds d text).length = (chunkText text 500).length then
        ⟨st.processed + 1,
          st.upserted ++ pointsToUpload d (chunkText text 500) (docEmbeds d text)⟩
      else st

def MAX_ARTICLES : Nat := 50

/-- The inner `for (const url of urls)` loop with its
`if (articlesProcessed >= MAX_ARTICLES) break;` guard. -/
def ingestDocs (maxA : Nat) : List DocEnv → IngestState → IngestState
  | [], st => st
  | d :: rest, st =>
      if maxA ≤ st.processed then st
      else ingestDocs maxA rest (processDoc st d)

/-- The outer `for (const sitemapUrl of sitemapUrls)` loop with its own
cap guard. -/
def ingestSitemaps (maxA : Nat) : List (List DocEnv) → IngestState → IngestState
  | [], st => st
  | docs :: rest, st =>
      if maxA ≤ st.processed then st
      else ingestSitemaps maxA rest (ingestDocs maxA docs st)

/-- A whole ingestion run over the fetched url lists of the sitemaps,
starting from `articlesProcessed = 0` and an empty store. -/
def runIngestion (sitemaps : List (List DocEnv)) : IngestState :=
  ingestSitemaps MAX_ARTICLES sitemaps ⟨0, []⟩

/-! ### Query path: server.js

Sessions live in the session store as lists of turns under the key
`"session:" + sessionId`; `rPush` appends.  TTL bookkeeping (`expire`)
touches no entry data and is not modelled. -/

inductive Turn where
  | user (text : List Char) : Turn
  | bot (text : List Char) : Turn
  deriving DecidableEq

abbrev Store := List Char → List Turn

def sessionKey (sid : List Char) : List Char :=
  "session:".data ++ sid

def emptyStore : Store := fun _ => []

/-- The two `rPush` calls after the stream completes: first the user turn,
then the bot turn. -/
def appendSession (store : Store) (sid query full : List Char) : Store :=
  fun k => if k = sessionKey sid then store k ++ [Turn.user query, Turn.bot full]
           else store k

/-- Outcomes of the remote calls made by one `/chat` request.
`embedResult` is what `getJinaEmbeddings([query])` returned (empty on
failure); `searchResults` is the payload text of each hit; `streamChunks`
are the fragments the generation stream yielded before either completing
(`streamFails = false`) or throwing (`streamFails = true`);
`generateFails` means `generateContentStream` itself threw before any
fragment; `freshId` is the token `crypto.randomBytes(16).toString('hex')`
would mint. -/
structure ChatEnv where
  embedResult : List (List Int)
  searchFails : Bool
  searchResults : List (List Char)
  generateFails : Bool
  streamChunks : List (List Char)
  streamFails : Bool
  freshId : List Char

def apos : Char := Char.ofNat 39

def fallbackContext : List Char :=
  "No relevant news articles were found in the database. Please try a different query.".data

def joinWith (sep : List Char) : List (List Char) → List Char
  | [] => []
  | [t] => t
  | t :: u :: rest => t ++ sep ++ joinWith sep (u :: rest)

def nlnl : List Char := ['\n', '\n']

def promptHead : List Char :=
  "Based on the following news articles, answer the user".data ++ [apos] ++
    "s question.\n\n        News Articles:\n        ".data

def promptMid : List Char :=
  "\n\n        User".data ++ [apos] ++ "s Question:\n        ".data

/-- The template literal building the RAG prompt for Gemini. -/
def buildPrompt (retrieved query : List Char) : List Char :=
  promptHead ++ retrieved ++ promptMid ++ query

/-- `sessionId || crypto.randomBytes(16).toString('hex')`: an absent or
empty (falsy) sessionId is replaced by the fresh token. -/
def resolveSessionId (sessionId : Option (List Char)) (freshId : List Char) : List Char :=
  match sessionId with
  | some s => if s.isEmpty then freshId else s
  | none => freshId

/-- Observable outcome of one `/chat` request: the session store after the
request, the HTTP status, the fragments written to the response body, which
remote services were invoked, the prompt sent to generation (if any), and
whether the request succeeded. -/
structure ChatOutcome where
  store : Store
  status : Nat
  written : List (List Char)
  searchCalled : Bool
  generateCalled : Bool
  promptSent : Option (List Char)
  ok : Bool

/-- The `POST /chat` handler (server.js lines 93-162). -/
def chatHandler (store : Store) (env : ChatEnv) (query : List Char)
    (sessionId : Option (List Char)) : ChatOutcome :=
  if query.isEmpty then ⟨store, 400, [], false, false, none, false⟩
  else
    let sid := resolveSessionId sessionId env.freshId
    if env.embedResult.isEmpty then ⟨store, 500, [], false, false, none, false⟩
    else if env.searchFails then ⟨store, 500, [], true, false, none, false⟩
    else
      let retrieved :=
        if env.searchResults.isEmpty then fallbackContext
        else joinWith nlnl env.searchResults
      let prompt := buildPrompt retrieved query
      if env.generateFails then ⟨store, 500, [], true, true, some prompt, false⟩
      else if env.streamFails then
        ⟨store, 500, env.streamChunks, true, true, some prompt, false⟩
      else
        ⟨appendSession store sid query env.streamChunks.flatten, 200,
          env.streamChunks, true, true, some prompt, true⟩

/-- The `GET /chat/history` handler (server.js lines 58-73): status and
parsed history.  A missing or empty (falsy) sessionId is a 400. -/
def getChatHistory (store : Store) : Option (List Char) → Nat × List Turn
  | none => (400, [])
  | some sid => if sid.isEmpty then (400, []) else (200, store (sessionKey sid))

structure ChatCall where
  query : List Char
  env : ChatEnv

/-- A sequence of `/chat` requests against the same session, each seeing
the store the previous one left. -/
def runChats (sid : List Char) : List ChatCall → Store → Store
  | [], store => store
  | c :: rest, store => runChats sid rest (chatHandler store c.env c.query (some sid)).store

/-- All remote calls of one `/chat` request succeed. -/
def callOk (c : ChatCall) : Prop :=
  c.query.isEmpty = false ∧ c.env.embedResult.isEmpty = false ∧
    c.env.searchFails = false ∧ c.env.generateFails = false ∧
    c.env.streamFails = false

instance (c : ChatCall) : Decidable (callOk c) := by
  unfold callOk
  infer_instance

/-! ### Concrete fixtures used by the witnesses and counterexamples -/

def exTextA : List Char := "ab. cd".data

def exTextB : List Char := "abcd. ".data

def exTextC : List Char := "Hi. Yo.".data

def exChunk : List Char := ['H', 'i', '.', ' ', 'Y', 'o', '.']

def stZero : IngestState := ⟨0, []⟩

def stCap : IngestState := ⟨50, []⟩

def exUrl : List Char := "https://example.org/a".data

/-- A document whose embedding call failed: one chunk, zero embeddings. -/
def dMismatch : DocEnv := ⟨exUrl, some exTextC, [], fun _ => 0⟩

/-- A document whose embedding call succeeded: one chunk, one embedding. -/
def dMatch : DocEnv := ⟨exUrl, some exTextC, [[1, 2]], fun _ => 0⟩

def exSitemaps : List (List DocEnv) := [[dMatch]]

def exQuery : List Char := "What happened?".data

def exSid : List Char := "abc".data

def exFrag : List Char := ['H', 'i']

def envStreamFail : ChatEnv := ⟨[[0]], false, [], false, [exFrag], true, ['f']⟩

def envEmbedFail : ChatEnv := ⟨[], false, [], false, [], false, ['f']⟩

def envOk : ChatEnv := ⟨[[0]], false, [], false, [exFrag], false, ['f']⟩

def exCall : ChatCall := ⟨exQuery, envOk⟩

/-! ### Helper lemmas about the chunker -/

theorem chunkGo_mem_ne_nil (m : Nat) :
    ∀ (ss : List (List Char)) (cur c : List Char), c ∈ chunkGo m ss cur → c ≠ [] := by
  intro ss
  induction ss with
  | nil =>
    intro cur c hc
    cases cur with
    | nil => simp [chunkGo] at hc
    | cons a t =>
      simp [chunkGo, List.isEmpty] at hc
      subst hc
      simp
  | cons s rest ih =>
    intro cur c hc
    by_cases hle : cur.length + s.length ≤ m
    · simp only [chunkGo, if_pos hle] at hc
      exact ih _ c hc
    · simp only [chunkGo, if_neg hle] at hc
      cases cur with
      | nil =>
        exact ih _ c (by simpa [List.isEmpty] using hc)
      | cons a t =>
        simp only [List.isEmpty, if_neg] at hc
        rcases List.mem_cons.mp hc with h1 | h1
        · subst h1
          simp
        · exact ih _ c h1

theorem chunkGo_mem (m : Nat) :
    ∀ (ss : List (List Char)) (cur c : List Char), c ∈ chunkGo m ss cur →
      c.length ≤ m + 1 ∨ c ∈ ss ∨ c = cur := by
  intro ss
  induction ss with
  | nil =>
    intro cur c hc
    cases cur with
    | nil => simp [chunkGo] at hc
    | cons a t =>
      simp [chunkGo, List.isEmpty] at hc
      exact Or.inr (Or.inr hc)
  | cons s rest ih =>
    intro cur c hc
    cases cur with
    | nil =>
      have hc2 : c ∈ chunkGo m rest s := by
        by_cases hle : ([] : List Char).length + s.length ≤ m
        · simpa [chunkGo, hle] using hc
        · simpa [chunkGo, hle] using hc
      rcases ih s c hc2 with h | h | h
      · exact Or.inl h
      · exact Or.inr (Or.inl (List.mem_cons_of_mem _ h))
      · subst h
        exact Or.inr (Or.inl (List.mem_cons_self _ _))
    | cons a t =>
      by_cases hle : t.length + 1 + s.length ≤ m
      · have hc2 : c ∈ chunkGo m rest (a :: (t ++ ' ' :: s)) := by
          simpa [chunkGo, hle] using hc
        rcases ih _ c hc2 with h | h | h
        · exact Or.inl h
        · exact Or.inr (Or.inl (List.mem_cons_of_mem _ h))
        · subst h
          refine Or.inl ?_
          simp only [List.length_cons, List.length_append]
          omega
      · have hc2 : c = a :: t ∨ c ∈ chunkGo m rest s := by
          simpa [chunkGo, hle] using hc
        rcases hc2 with h1 | h1
        · exact Or.inr (Or.inr h1)
        · rcases ih _ c h1 with h | h | h
          · exact Or.inl h
          · exact Or.inr (Or.inl (List.mem_cons_of_mem _ h))
          · subst h
            exact Or.inr (Or.inl (List.mem_cons_self _ _))

theorem joinSp_ne_nil (g : List (List Char)) (hg : g ≠ []) (h : ∀ s ∈ g, s ≠ []) :
    joinSp g ≠ [] := by
  cases g with
  | nil => exact absurd rfl hg
  | cons c tail =>
    cases tail with
    | nil => exact h c (List.mem_cons_self _ _)
    | cons c2 t2 =>
      simp [joinSp]

theorem joinSp_append_single (s : List Char) :
    ∀ (g : List (List Char)), g ≠ [] → joinSp (g ++ [s]) = joinSp g ++ ' ' :: s := by
  intro g
  induction g with
  | nil => intro hg; exact absurd rfl hg
  | cons c tail ih =>
    intro _
    cases tail with
    | nil => rfl
    | cons c2 t2 =>
      have h2 : joinSp (c2 :: t2 ++ [s]) = joinSp (c2 :: t2) ++ ' ' :: s := ih (by simp)
      calc joinSp ((c :: c2 :: t2) ++ [s])
          = c ++ ' ' :: joinSp (c2 :: t2 ++ [s]) := rfl
        _ = c ++ ' ' :: (joinSp (c2 :: t2) ++ ' ' :: s) := by rw [h2]
        _ = (c ++ ' ' :: joinSp (c2 :: t2)) ++ ' ' :: s := by
              rw [List.append_assoc, List.cons_append]
        _ = joinSp (c :: c2 :: t2) ++ ' ' :: s := rfl

/-- Invariant of the greedy loop: starting from a buffer holding the
space-join of a nonempty group `g` of nonempty sentences, the produced
chunks are the space-joins of consecutive groups whose concatenation is
exactly `g` followed by the remaining sentences. -/
theorem chunkGo_partition (m : Nat) :
    ∀ (ss g : List (List Char)), g ≠ [] → (∀ s ∈ g, s ≠ []) →
      (∀ s ∈ ss, s ≠ []) →
      ∃ groups : List (List (List Char)),
        chunkGo m ss (joinSp g) = groups.map joinSp ∧
        groups.flatten = g ++ ss ∧
        ∀ g2 ∈ groups, g2 ≠ [] ∧ ∀ s ∈ g2, s ≠ [] := by
  intro ss
  induction ss with
  | nil =>
    intro g hg hgs _
    have hne : (joinSp g).isEmpty = false := by
      cases hj : joinSp g with
      | nil => exact absurd hj (joinSp_ne_nil g hg hgs)
      | cons a t => rfl
    refine ⟨[g], by simp [chunkGo, hne], by simp, ?_⟩
    intro g2 h2
    rcases List.mem_singleton.mp h2 with rfl
    exact ⟨hg, hgs⟩
  | cons s rest ih =>
    intro g hg hgs hss
    have hs : s ≠ [] := hss s (List.mem_cons_self _ _)
    have hrest : ∀ s2 ∈ rest, s2 ≠ [] := fun s2 h2 => hss s2 (List.mem_cons_of_mem _ h2)
    have hne : (joinSp g).isEmpty = false := by
      cases hj : joinSp g with
      | nil => exact absurd hj (joinSp_ne_nil g hg hgs)
      | cons a t => rfl
    by_cases hle : (joinSp g).length + s.length ≤ m
    · have hstep : chunkGo m (s :: rest) (joinSp g) = chunkGo m rest (joinSp (g ++ [s])) := by
        rw [joinSp_append_single s g hg]
        simp [chunkGo, hle, hne]
      have hgs2 : ∀ s2 ∈ g ++ [s], s2 ≠ [] := by
        intro s2 h2
        rcases List.mem_append.mp h2 with h3 | h3
        · exact hgs s2 h3
        · rcases List.mem_singleton.mp h3 with rfl
          exact hs
      obtain ⟨groups, h1, h2, h3⟩ := ih (g ++ [s]) (by simp) hgs2 hrest
      refine ⟨groups, by rw [hstep, h1], ?_, h3⟩
      rw [h2, List.append_assoc]
      rfl
    · have hstep : chunkGo m (s :: rest) (joinSp g) =
          joinSp g :: chunkGo m rest (joinSp [s]) := by
        simp [chunkGo, hle, hne, joinSp]
      obtain ⟨groups, h1, h2, h3⟩ :=
        ih [s] (by simp) (by simpa using hs) hrest
      refine ⟨g :: groups, ?_, ?_, ?_⟩
      · rw [hstep, h1]
        rfl
      · simp only [List.flatten_cons, h2]
        rfl
      · intro g2 h4
        rcases List.mem_cons.mp h4 with h5 | h5
        · subst h5
          exact ⟨hg, hgs⟩
        · exact h3 g2 h5

/-- Claim C1 (counterexample): with text `"ab. cd"` and `maxChars = 5` the
single returned chunk `"ab. cd"` has length 6 > 5 yet is not a single
input sentence: the greedy test does not count the joining space, so the
stated bound fails. -/
theorem c1_counterexample :
    ¬ ∀ c ∈ chunkText exTextA 5,
        c.length ≤ 5 ∨ (c ∈ splitSentences exTextA ∧ 5 < c.length) := by
  decide

/-- Claim C1 (amended): every chunk returned by `chunkText text maxChars`
either has length at most `maxChars + 1` (the joining space is not counted
by the greedy test, so packed chunks can exceed the bound by exactly one)
or is exactly one sentence of the input, kept whole even when oversized. -/
theorem c1_chunk_length_bound (text : List Char) (maxChars : Nat) (c : List Char)
    (hc : c ∈ chunkText text maxChars) :
    c.length ≤ maxChars + 1 ∨ c ∈ splitSentences text := by
  rcases chunkGo_mem maxChars (splitSentences text) [] c hc with h | h | h
  · exact Or.inl h
  · exact Or.inr h
  · exact absurd h (chunkGo_mem_ne_nil maxChars _ _ c hc)

/-- Witness for C1 at a concrete input. -/
theorem c1_chunk_length_bound_witness :
    exChunk ∈ chunkText exTextC 500 ∧
      (exChunk.length ≤ 500 + 1 ∨ exChunk ∈ splitSentences exTextC) :=
  ⟨by decide, c1_chunk_length_bound exTextC 500 exChunk (by decide)⟩

/-- Claim C4 (counterexample): for text `"abcd. "` and `maxChars = 3` the
sentence split is `["abcd.", ""]` but the chunks are `["abcd."]`: the
trailing empty sentence is dropped, so no grouping of the chunks
reproduces the sentence sequence. -/
theorem c4_counterexample :
    ¬ ∃ groups : List (List (List Char)),
        chunkText exTextB 3 = groups.map joinSp ∧
        groups.flatten = splitSentences exTextB := by
  rintro ⟨groups, hmap, hflat⟩
  have h1 : chunkText exTextB 3 = [['a', 'b', 'c', 'd', '.']] := by decide
  rw [h1] at hmap
  cases groups with
  | nil => simp at hmap
  | cons g tail =>
    cases tail with
    | cons g2 t2 => simp at hmap
    | nil =>
      have hg : g = splitSentences exTextB := by simpa using hflat
      have h2 : splitSentences exTextB = [['a', 'b', 'c', 'd', '.'], []] := by decide
      rw [hg, h2] at hmap
      exact absurd hmap (by decide)

/-- Claim C4 (amended): when every sentence of the split is nonempty (the
text does not end in sentence punctuation followed by whitespace, which
produces a trailing empty sentence that the loop can drop), the chunks are
the space-joins of consecutive nonempty groups of sentences whose
concatenation is exactly the sentence sequence: no sentence is lost,
duplicated, reordered or altered. -/
theorem c4_chunks_partition_sentences (text : List Char) (maxChars : Nat)
    (h : ∀ s ∈ splitSentences text, s ≠ []) :
    ∃ groups : List (List (List Char)),
      chunkText text maxChars = groups.map joinSp ∧
      groups.flatten = splitSentences text ∧
      ∀ g ∈ groups, g ≠ [] := by
  unfold chunkText
  cases hss : splitSentences text with
  | nil => exact ⟨[], by simp [chunkGo], by simp, by simp⟩
  | cons s rest =>
    have hs : s ≠ [] := h s (by rw [hss]; exact List.mem_cons_self _ _)
    have hrest : ∀ s2 ∈ rest, s2 ≠ [] := fun s2 h2 =>
      h s2 (by rw [hss]; exact List.mem_cons_of_mem _ h2)
    have hstep : chunkGo maxChars (s :: rest) [] = chunkGo maxChars rest (joinSp [s]) := by
      by_cases hle : ([] : List Char).length + s.length ≤ maxChars
      · simp [chunkGo, hle, joinSp]
      · simp [chunkGo, hle, joinSp]
    obtain ⟨groups, h1, h2, h3⟩ :=
      chunkGo_partition maxChars rest [s] (by simp) (by simpa using hs) hrest
    refine ⟨groups, by rw [hstep, h1], by rw [h2]; rfl, fun g hg => (h3 g hg).1⟩

/-- Witness for C4 at a concrete input. -/
theorem c4_chunks_partition_sentences_witness :
    (∀ s ∈ splitSentences exTextC, s ≠ []) ∧
      ∃ groups : List (List (List Char)),
        chunkText exTextC 500 = groups.map joinSp ∧
        groups.flatten = splitSentences exTextC ∧
        ∀ g ∈ groups, g ≠ [] :=
  ⟨by decide, c4_chunks_partition_sentences exTextC 500 (by decide)⟩

/-- Claim C9: `chunkText` is deterministic: two runs on identical inputs
return identical chunk sequences; the function reads no external state. -/
theorem c9_chunkText_deterministic (t1 t2 : List Char) (m1 m2 : Nat)
    (ht : t1 = t2) (hm : m1 = m2) : chunkText t1 m1 = chunkText t2 m2 := by
  rw [ht, hm]

/-- Witness for C9 at a concrete input. -/
theorem c9_chunkText_deterministic_witness :
    exTextC = exTextC ∧ chunkText exTextC 500 = chunkText exTextC 500 :=
  ⟨rfl, c9_chunkText_deterministic exTextC exTextC 500 500 rfl rfl⟩

/-! ### Ingestion claims -/

/-- Claim C2: for a fetched document, points are upserted and the counter
incremented if and only if the embedding call returned exactly one vector
per chunk; on any length mismatch (including the empty result of a failed
call) the document contributes zero upserts and the counter is unchanged. -/
theorem c2_upsert_iff_embed_count (st : IngestState) (d : DocEnv) (text : List Char)
    (hc : d.content = some text) :
    ((docEmbeds d text).length = (chunkText text 500).length →
        processDoc st d =
          ⟨st.processed + 1,
            st.upserted ++ pointsToUpload d (chunkText text 500) (docEmbeds d text)⟩) ∧
    ((docEmbeds d text).length ≠ (chunkText text 500).length →
        processDoc st d = st) := by
  refine ⟨fun h => ?_, fun h => ?_⟩
  · simp only [processDoc, hc]
    rw [if_pos h]
  · simp only [processDoc, hc]
    rw [if_neg h]

/-- Witness for C2 at a concrete input: a document whose embedding call
failed (empty result, one chunk) changes nothing. -/
theorem c2_upsert_iff_embed_count_witness :
    dMismatch.content = some exTextC ∧ processDoc stZero dMismatch = stZero :=
  ⟨rfl, (c2_upsert_iff_embed_count stZero dMismatch exTextC rfl).2 (by decide)⟩

theorem processDoc_processed_le (st : IngestState) (d : DocEnv) :
    (processDoc st d).processed ≤ st.processed + 1 := by
  rcases hd : d.content with _ | text
  · simp [processDoc, hd]
  · by_cases h : (docEmbeds d text).length = (chunkText text 500).length
    · simp [processDoc, hd, h]
    · simp [processDoc, hd, h]

theorem ingestDocs_processed_le (maxA : Nat) :
    ∀ (docs : List DocEnv) (st : IngestState), st.processed ≤ maxA →
      (ingestDocs maxA docs st).processed ≤ maxA := by
  intro docs
  induction docs with
  | nil => intro st h; simpa [ingestDocs] using h
  | cons d rest ih =>
    intro st h
    by_cases hcap : maxA ≤ st.processed
    · simpa [ingestDocs, hcap] using h
    · have h2 : st.processed < maxA := Nat.lt_of_not_le hcap
      have h3 : (processDoc st d).processed ≤ maxA :=
        le_trans (processDoc_processed_le st d) (Nat.succ_le_of_lt h2)
      simpa [ingestDocs, hcap] using ih (processDoc st d) h3

theorem ingestSitemaps_processed_le (maxA : Nat) :
    ∀ (sms : List (List DocEnv)) (st : IngestState), st.processed ≤ maxA →
      (ingestSitemaps maxA sms st).processed ≤ maxA := by
  intro sms
  induction sms with
  | nil => intro st h; simpa [ingestSitemaps] using h
  | cons docs rest ih =>
    intro st h
    by_cases hcap : maxA ≤ st.processed
    · simpa [ingestSitemaps, hcap] using h
    · have h3 : (ingestDocs maxA docs st).processed ≤ maxA :=
        ingestDocs_processed_le maxA docs st h
      simpa [ingestSitemaps, hcap] using ih (ingestDocs maxA docs st) h3

theorem ingestSitemaps_stop (maxA : Nat) (sms : List (List DocEnv)) (st : IngestState)
    (h : maxA ≤ st.processed) : ingestSitemaps maxA sms st = st := by
  cases sms with
  | nil => rfl
  | cons docs rest => simp [ingestSitemaps, h]

/-- Claim C3: over any sequence of source lists and per-document outcomes,
the processed-document counter at termination never exceeds
`MAX_ARTICLES = 50`, and once the counter has reached the cap the source
iteration stops immediately, leaving the state untouched. -/
theorem c3_cap_invariant :
    (∀ sms : List (List DocEnv), (runIngestion sms).processed ≤ MAX_ARTICLES) ∧
    (∀ (sms : List (List DocEnv)) (st : IngestState),
        MAX_ARTICLES ≤ st.processed → ingestSitemaps MAX_ARTICLES sms st = st) :=
  ⟨fun sms => ingestSitemaps_processed_le MAX_ARTICLES sms ⟨0, []⟩ (Nat.zero_le _),
   fun sms st h => ingestSitemaps_stop MAX_ARTICLES sms st h⟩

/-- Witness for C3 at a concrete input (the second conjunct has a
hypothesis: a state already at the cap is left untouched). -/
theorem c3_cap_invariant_witness :
    (runIngestion exSitemaps).processed ≤ MAX_ARTICLES ∧
      MAX_ARTICLES ≤ stCap.processed ∧
      ingestSitemaps MAX_ARTICLES exSitemaps stCap = stCap :=
  ⟨c3_cap_invariant.1 exSitemaps, by decide,
   c3_cap_invariant.2 exSitemaps stCap (by decide)⟩

theorem jsPointId_bounds (r : ℚ) (h0 : 0 ≤ r) (h1 : r < 1) :
    0 ≤ jsPointId r ∧ jsPointId r < 1000000 := by
  unfold jsPointId
  constructor
  · exact Int.floor_nonneg.mpr (mul_nonneg h0 (by norm_num))
  · have h2 : r * 1000000 < 1000000 := by nlinarith
    exact Int.floor_lt.mpr (by exact_mod_cast h2)

theorem mem_pointsToUpload_id (d : DocEnv) (chunks : List (List Char))
    (embeds : List (List Int)) (p : Point) (hp : p ∈ pointsToUpload d chunks embeds) :
    ∃ i, p.id = jsPointId (d.rand i) := by
  simp only [pointsToUpload, List.mem_map] at hp
  obtain ⟨q, hq, rfl⟩ := hp
  exact ⟨q.1, rfl⟩

theorem processDoc_upserted_id (st : IngestState) (d : DocEnv) (p : Point)
    (hp : p ∈ (processDoc st d).upserted) :
    p ∈ st.upserted ∨ ∃ i, p.id = jsPointId (d.rand i) := by
  rcases hd : d.content with _ | text
  · simp only [processDoc, hd] at hp
    exact Or.inl hp
  · by_cases h : (docEmbeds d text).length = (chunkText text 500).length
    · simp only [processDoc, hd, if_pos h] at hp
      rcases List.mem_append.mp hp with h2 | h2
      · exact Or.inl h2
      · exact Or.inr (mem_pointsToUpload_id _ _ _ p h2)
    · simp only [processDoc, hd, if_neg h] at hp
      exact Or.inl hp

theorem ingestDocs_upserted_id (maxA : Nat) :
    ∀ (docs : List DocEnv) (st : IngestState) (p : Point),
      p ∈ (ingestDocs maxA docs st).upserted →
      p ∈ st.upserted ∨ ∃ d ∈ docs, ∃ i, p.id = jsPointId (d.rand i) := by
  intro docs
  induction docs with
  | nil =>
    intro st p hp
    exact Or.inl (by simpa [ingestDocs] using hp)
  | cons d rest ih =>
    intro st p hp
    by_cases hcap : maxA ≤ st.processed
    · exact Or.inl (by simpa [ingestDocs, hcap] using hp)
    · have hp2 : p ∈ (ingestDocs maxA rest (processDoc st d)).upserted := by
        simpa [ingestDocs, hcap] using hp
      rcases ih (processDoc st d) p hp2 with h2 | ⟨d2, hd2, i, hi⟩
      · rcases processDoc_upserted_id st d p h2 with h3 | ⟨i, hi⟩
        · exact Or.inl h3
        · exact Or.inr ⟨d, List.mem_cons_self _ _, i, hi⟩
      · exact Or.inr ⟨d2, List.mem_cons_of_mem _ hd2, i, hi⟩

theorem ingestSitemaps_upserted_id (maxA : Nat) :
    ∀ (sms : List (List DocEnv)) (st : IngestState) (p : Point),
      p ∈ (ingestSitemaps maxA sms st).upserted →
      p ∈ st.upserted ∨ ∃ docs ∈ sms, ∃ d ∈ docs, ∃ i, p.id = jsPointId (d.rand i) := by
  intro sms
  induction sms with
  | nil =>
    intro st p hp
    exact Or.inl (by simpa [ingestSitemaps] using hp)
  | cons docs rest ih =>
    intro st p hp
    by_cases hcap : maxA ≤ st.processed
    · exact Or.inl (by simpa [ingestSitemaps, hcap] using hp)
    · have hp2 : p ∈ (ingestSitemaps maxA rest (ingestDocs maxA docs st)).upserted := by
        simpa [ingestSitemaps, hcap] using hp
      rcases ih (ingestDocs maxA docs st) p hp2 with h2 | ⟨docs2, hdocs2, d2, hd2, i, hi⟩
      · rcases ingestDocs_upserted_id maxA docs st p h2 with h3 | ⟨d, hd, i, hi⟩
        · exact Or.inl h3
        · exact Or.inr ⟨docs, List.mem_cons_self _ _, d, hd, i, hi⟩
      · exact Or.inr ⟨docs2, List.mem_cons_of_mem _ hdocs2, d2, hd2, i, hi⟩

/-- Claim C10: when every draw of the random source lies in `[0, 1)`,
every point id generated during a whole ingestion run is
`Math.floor(r * 1000000)` for such a draw and therefore lies in
`[0, 1000000)`: all chunk ids come from at most one million values. -/
theorem c10_point_ids_bounded (sms : List (List DocEnv))
    (h : ∀ docs ∈ sms, ∀ d ∈ docs, ∀ i, 0 ≤ d.rand i ∧ d.rand i < 1) :
    ∀ p ∈ (runIngestion sms).upserted, 0 ≤ p.id ∧ p.id < 1000000 := by
  intro p hp
  rcases ingestSitemaps_upserted_id MAX_ARTICLES sms ⟨0, []⟩ p hp with
    h2 | ⟨docs, hdocs, d, hd, i, hi⟩
  · simp at h2
  · rw [hi]
    exact jsPointId_bounds _ (h docs hdocs d hd i).1 (h docs hdocs d hd i).2

/-- Witness for C10 at a concrete input. -/
theorem c10_point_ids_bounded_witness :
    (∀ docs ∈ exSitemaps, ∀ d ∈ docs, ∀ i, 0 ≤ d.rand i ∧ d.rand i < 1) ∧
      ∀ p ∈ (runIngestion exSitemaps).upserted, 0 ≤ p.id ∧ p.id < 1000000 :=
  ⟨by simp [exSitemaps, dMatch],
   c10_point_ids_bounded exSitemaps (by simp [exSitemaps, dMatch])⟩

/-! ### Query-path claims -/

/-- Claim C5: when the generation stream throws after forwarding some
fragments, the already-forwarded fragments stand but the session store is
left untouched: neither the user turn nor the partial bot text is
persisted. -/
theorem c5_stream_failure_no_session_write (store : Store) (env : ChatEnv)
    (query : List Char) (sessionId : Option (List Char))
    (hq : query.isEmpty = false) (he : env.embedResult.isEmpty = false)
    (hs : env.searchFails = false) (hg : env.generateFails = false)
    (hf : env.streamFails = true) (hw : env.streamChunks ≠ []) :
    (∀ k, (chatHandler store env query sessionId).store k = store k) ∧
    (chatHandler store env query sessionId).written = env.streamChunks ∧
    (chatHandler store env query sessionId).ok = false := by
  simp [chatHandler, hq, he, hs, hg, hf]

/-- Witness for C5 at a concrete input. -/
theorem c5_stream_failure_no_session_write_witness :
    exQuery.isEmpty = false ∧ envStreamFail.streamChunks ≠ [] ∧
      (∀ k, (chatHandler emptyStore envStreamFail exQuery (some exSid)).store k =
        emptyStore k) ∧
      (chatHandler emptyStore envStreamFail exQuery (some exSid)).written =
        envStreamFail.streamChunks ∧
      (chatHandler emptyStore envStreamFail exQuery (some exSid)).ok = false :=
  ⟨rfl, by decide,
   c5_stream_failure_no_session_write emptyStore envStreamFail exQuery (some exSid)
     rfl rfl rfl rfl rfl (by decide)⟩

/-- Claim C6: when the query embedding call returns an empty result, the
request ends with an error status and neither the vector search, nor the
generation call, nor any session write happens. -/
theorem c6_embed_failure_terminal (store : Store) (env : ChatEnv)
    (query : List Char) (sessionId : Option (List Char))
    (hq : query.isEmpty = false) (he : env.embedResult = []) :
    (chatHandler store env query sessionId).status = 500 ∧
    (chatHandler store env query sessionId).ok = false ∧
    (chatHandler store env query sessionId).searchCalled = false ∧
    (chatHandler store env query sessionId).generateCalled = false ∧
    (∀ k, (chatHandler store env query sessionId).store k = store k) ∧
    (chatHandler store env query sessionId).written = [] := by
  simp [chatHandler, hq, he]

/-- Witness for C6 at a concrete input. -/
theorem c6_embed_failure_terminal_witness :
    exQuery.isEmpty = false ∧ envEmbedFail.embedResult = [] ∧
      (chatHandler emptyStore envEmbedFail exQuery (some exSid)).status = 500 ∧
      (chatHandler emptyStore envEmbedFail exQuery (some exSid)).ok = false ∧
      (chatHandler emptyStore envEmbedFail exQuery (some exSid)).searchCalled = false ∧
      (chatHandler emptyStore envEmbedFail exQuery (some exSid)).generateCalled = false ∧
      (∀ k, (chatHandler emptyStore envEmbedFail exQuery (some exSid)).store k =
        emptyStore k) ∧
      (chatHandler emptyStore envEmbedFail exQuery (some exSid)).written = [] :=
  ⟨rfl, rfl,
   c6_embed_failure_terminal emptyStore envEmbedFail exQuery (some exSid) rfl rfl⟩

/-- Claim C8: an empty vector-search result is not an error: the fixed
fallback context string is substituted for the retrieved passages, the
generation call still happens with that prompt, and the request completes
as a non-error streamed response. -/
theorem c8_empty_search_fallback (store : Store) (env : ChatEnv)
    (query : List Char) (sessionId : Option (List Char))
    (hq : query.isEmpty = false) (he : env.embedResult.isEmpty = false)
    (hs : env.searchFails = false) (hr : env.searchResults = [])
    (hg : env.generateFails = false) (hf : env.streamFails = false) :
    (chatHandler store env query sessionId).status = 200 ∧
    (chatHandler store env query sessionId).ok = true ∧
    (chatHandler store env query sessionId).generateCalled = true ∧
    (chatHandler store env query sessionId).promptSent =
      some (buildPrompt fallbackContext query) ∧
    (chatHandler store env query sessionId).written = env.streamChunks := by
  simp [chatHandler, hq, he, hs, hr, hg, hf]

/-- Witness for C8 at a concrete input. -/
theorem c8_empty_search_fallback_witness :
    exQuery.isEmpty = false ∧ envOk.searchResults = [] ∧
      (chatHandler emptyStore envOk exQuery (some exSid)).status = 200 ∧
      (chatHandler emptyStore envOk exQuery (some exSid)).ok = true ∧
      (chatHandler emptyStore envOk exQuery (some exSid)).generateCalled = true ∧
      (chatHandler emptyStore envOk exQuery (some exSid)).promptSent =
        some (buildPrompt fallbackContext exQuery) ∧
      (chatHandler emptyStore envOk exQuery (some exSid)).written = envOk.streamChunks :=
  ⟨rfl, rfl,
   c8_empty_search_fallback emptyStore envOk exQuery (some exSid) rfl rfl rfl rfl rfl rfl⟩

theorem chatHandler_ok_store (store : Store) (env : ChatEnv) (query sid : List Char)
    (hq : query.isEmpty = false) (hsid : sid.isEmpty = false)
    (he : env.embedResult.isEmpty = false) (hs : env.searchFails = false)
    (hg : env.generateFails = false) (hf : env.streamFails = false) :
    (chatHandler store env query (some sid)).store =
      appendSession store sid query env.streamChunks.flatten := by
  simp [chatHandler, resolveSessionId, hq, hsid, he, hs, hg, hf]

theorem flatMap_turns_length (l : List ChatCall) :
    (l.flatMap fun c => [Turn.user c.query, Turn.bot c.env.streamChunks.flatten]).length
      = 2 * l.length := by
  induction l with
  | nil => rfl
  | cons c rest ih =>
    simp only [List.flatMap_cons, List.length_append, List.length_cons, ih]
    simp
    omega

theorem runChats_key (sid : List Char) (hsid : sid.isEmpty = false) :
    ∀ (calls : List ChatCall) (store : Store), (∀ c ∈ calls, callOk c) →
      runChats sid calls store (sessionKey sid) =
        store (sessionKey sid) ++
          calls.flatMap fun c => [Turn.user c.query, Turn.bot c.env.streamChunks.flatten] := by
  intro calls
  induction calls with
  | nil =>
    intro store _
    simp [runChats]
  | cons c rest ih =>
    intro store h
    obtain ⟨hq, he, hs, hg, hf⟩ := h c (List.mem_cons_self _ _)
    have hstep : (chatHandler store c.env c.query (some sid)).store =
        appendSession store sid c.query c.env.streamChunks.flatten :=
      chatHandler_ok_store store c.env c.query sid hq hsid he hs hg hf
    have h2 : ∀ c2 ∈ rest, callOk c2 := fun c2 hc2 => h c2 (List.mem_cons_of_mem _ hc2)
    calc runChats sid (c :: rest) store (sessionKey sid)
        = runChats sid rest (chatHandler store c.env c.query (some sid)).store
            (sessionKey sid) := by
          simp only [runChats]
      _ = (appendSession store sid c.query c.env.streamChunks.flatten) (sessionKey sid) ++
            rest.flatMap (fun c2 => [Turn.user c2.query, Turn.bot c2.env.streamChunks.flatten]) := by
          rw [hstep]
          exact ih _ h2
      _ = store (sessionKey sid) ++
            (c :: rest).flatMap
              (fun c2 => [Turn.user c2.query, Turn.bot c2.env.streamChunks.flatten]) := by
          simp [appendSession, List.flatMap_cons]

/-- Claim C7: after a sequence of successful `/chat` calls on the same
(fresh) session, the history endpoint answers 200 with exactly two entries
per call, in write order, alternating the user turn and then the bot turn
holding the full accumulated text of that call's stream. -/
theorem c7_history_after_chats (sid : List Char) (calls : List ChatCall) (store : Store)
    (hsid : sid.isEmpty = false) (hcalls : ∀ c ∈ calls, callOk c)
    (hfresh : store (sessionKey sid) = []) :
    (getChatHistory (runChats sid calls store) (some sid)).1 = 200 ∧
    (getChatHistory (runChats sid calls store) (some sid)).2 =
      (calls.flatMap fun c => [Turn.user c.query, Turn.bot c.env.streamChunks.flatten]) ∧
    (getChatHistory (runChats sid calls store) (some sid)).2.length = 2 * calls.length := by
  have hkey := runChats_key sid hsid calls store hcalls
  rw [hfresh] at hkey
  simp only [List.nil_append] at hkey
  have h3 : (getChatHistory (runChats sid calls store) (some sid)).2 =
      (calls.flatMap fun c => [Turn.user c.query, Turn.bot c.env.streamChunks.flatten]) := by
    simp [getChatHistory, hsid, hkey]
  refine ⟨by simp [getChatHistory, hsid], h3, ?_⟩
  rw [h3, flatMap_turns_length]

/-- Witness for C7 at a concrete input: one successful call on a fresh
session yields a two-entry history. -/
theorem c7_history_after_chats_witness :
    exSid.isEmpty = false ∧ (∀ c ∈ [exCall], callOk c) ∧
      emptyStore (sessionKey exSid) = [] ∧
      ((getChatHistory (runChats exSid [exCall] emptyStore) (some exSid)).1 = 200 ∧
        (getChatHistory (runChats exSid [exCall] emptyStore) (some exSid)).2 =
          ([exCall].flatMap fun c =>
            [Turn.user c.query, Turn.bot c.env.streamChunks.flatten]) ∧
        (getChatHistory (runChats exSid [exCall] emptyStore) (some exSid)).2.length =
          2 * [exCall].length) :=
  ⟨rfl, by decide, rfl,
   c7_history_after_chats exSid [exCall] emptyStore rfl (by decide) rfl⟩

end RagChatbot
